import Mathlib

/-!
The package zkscrypto

A shallow embedding of `go/zksync-crypto/zkscrypto.go`, the Go wrapper around the
`zks_crypto` C library, and theorems about it.

* Go byte slices are `Slice` values: the nil slice, or a slice holding a list of bytes.
* A C struct holding `uint8_t data[n]` is a `CArray n`: a list of exactly `n` bytes.
* A Go `(*T, error)` result is a pair of options (`none` is Go's `nil`).
* A method that indexes a fixed-size array can stop with Go's run-time panic
  "index out of range"; such a method returns `Option (GoResult T)`, `none` being the panic.
* The four C primitives are linked from a binary library; every wrapper takes the primitive
  it calls as its first argument: a function from what the primitive reads (its input
  buffers, and the output struct as the caller initialised it) to its result code and the
  output struct as the primitive leaves it.
-/

namespace Zkscrypto

/-! ## Data model -/

/-- A Go `byte`, a C `uint8_t`. -/
abbrev Byte := Fin 256

/-- A Go `[]byte`: the nil slice, or a slice over the listed bytes. -/
inductive Slice where
  | nil : Slice
  | of (elems : List Byte) : Slice
deriving DecidableEq, Repr

/-- The bytes `for ... range s` visits, in order. -/
def Slice.elems : Slice → List Byte
  | .nil => []
  | .of l => l

/-- Go's `len(s)`. -/
def Slice.len (s : Slice) : Nat := s.elems.length

/-- Go's `s == nil`. -/
def Slice.isNil : Slice → Bool
  | .nil => true
  | .of _ => false

/-- MaxSignedMessageLen: maximum byte length of the message that can be signed. -/
abbrev MaxSignedMessageLen : Nat := 92

/-- PackedSignatureLen: byte length of the signature. -/
abbrev PackedSignatureLen : Nat := 64

/-- PrivateKeyLen: byte length of the private key. -/
abbrev PrivateKeyLen : Nat := 32

/-- PubkeyHashLen: byte length of the public key hash. -/
abbrev PubkeyHashLen : Nat := 20

/-- PublicKeyLen: byte length of the public key. -/
abbrev PublicKeyLen : Nat := 32

/-- A Go `error` made by `errors.New`, identified by its message. -/
structure GoError where
  msg : String
deriving DecidableEq, Repr

def errSeedLen : GoError := ⟨"Given seed is too short, length must be greater than 32"⟩

def errSignedMsgLen : GoError := ⟨"Musig message length must not be larger than 92"⟩

/-- The pair `(*T, error)` a Go function returns; `none` is `nil`. -/
abbrev GoResult (α : Type) := Option α × Option GoError

/-- The C array `uint8_t data[n]` inside a `struct Zks...`: exactly `n` bytes. -/
abbrev CArray (n : Nat) := { l : List Byte // l.length = n }

/-- The zero value `C.struct_Zks...{}`: every byte is 0. -/
def CArray.zero (n : Nat) : CArray n := ⟨List.replicate n 0, List.length_replicate n 0⟩

/-- The assignment `a.data[i] = v` for an index already checked to be in range. -/
def CArray.set {n : Nat} (a : CArray n) (i : Nat) (v : Byte) : CArray n :=
  ⟨a.val.set i v, by rw [List.length_set]; exact a.property⟩

/-- The call `C.GoBytes(data, n)` on a pointer `data` to `p.data`: a fresh Go slice
holding the first `n` bytes found at the address of the struct. -/
def GoBytes {m : Nat} (p : CArray m) (n : Nat) : Slice := .of (p.val.take n)

/-- Modelled from the spec: the declaration of type `PrivateKey` is not in the source
file; the source builds it as `PrivateKey{data: ...}` and reads `pk.data` as a byte slice. -/
structure PrivateKey where
  data : Slice
deriving DecidableEq, Repr

/-- Modelled from the spec: the declaration of type `PublicKey` is not in the source
file; the source builds it as `PublicKey{data: ...}` and reads `pk.data` as a byte slice. -/
structure PublicKey where
  data : Slice
deriving DecidableEq, Repr

/-- Modelled from the spec: the declaration of type `PublicKeyHash` is not in the source
file; the source builds it as `PublicKeyHash{data: ...}` and reads `pk.data` as a byte slice. -/
structure PublicKeyHash where
  data : Slice
deriving DecidableEq, Repr

/-- Modelled from the spec: the declaration of type `Signature` is not in the source
file; the source builds it as `Signature{data: ...}` and reads `pk.data` as a byte slice. -/
structure Signature where
  data : Slice
deriving DecidableEq, Repr

/-! ## The wrappers -/

/-- The loop `for i := range src { keyC.data[i] = C.uint8_t(src[i]) }`, entered at index
`i` with the elements of `src` still to visit. `keyC.data` is a Go array of `n` elements, so
the assignment at an index `i ≥ n` is Go's index-out-of-range panic (`none`). -/
def copyLoop {n : Nat} : List Byte → Nat → CArray n → Option (CArray n)
  | [], _, keyC => some keyC
  | v :: rest, i, keyC => if i < n then copyLoop rest (i + 1) (keyC.set i v) else none

/-- The struct declared as `C.struct_Zks...{}` and then filled by the copy loop. -/
def marshalKey (n : Nat) (data : Slice) : Option (CArray n) :=
  copyLoop data.elems 0 (CArray.zero n)

/-- NewPrivateKey generates private key from seed. -/
def NewPrivateKey
    (zks_crypto_private_key_from_seed :
      List Byte → CArray PrivateKeyLen → Int × CArray PrivateKeyLen)
    (seed : Slice) : GoResult PrivateKey :=
  let pointer := CArray.zero PrivateKeyLen
  let rawSeed := seed.elems
  let (result, pointer) := zks_crypto_private_key_from_seed rawSeed pointer
  let early : Option (GoResult PrivateKey) :=
    if result ≠ 0 then
      (if result = 1 then some (none, some errSeedLen) else none)
    else none
  match early with
  | some r => r
  | none => (some ⟨GoBytes pointer PrivateKeyLen⟩, none)

/-- Sign message with musig Schnorr signature scheme. -/
def PrivateKey.Sign
    (zks_crypto_sign_musig :
      CArray PrivateKeyLen → List Byte → CArray PackedSignatureLen →
        Int × CArray PackedSignatureLen)
    (pk : PrivateKey) (message : Slice) : Option (GoResult Signature) :=
  let rawMessage := message.elems
  match marshalKey PrivateKeyLen pk.data with
  | none => none
  | some privateKeyC =>
    let signatureC := CArray.zero PackedSignatureLen
    let (result, signatureC) := zks_crypto_sign_musig privateKeyC rawMessage signatureC
    let early : Option (GoResult Signature) :=
      if result ≠ 0 then
        (if result = 1 then some (none, some errSignedMsgLen) else none)
      else none
    match early with
    | some r => some r
    | none => some (some ⟨GoBytes signatureC PackedSignatureLen⟩, none)

/-- PublicKey generates public key from private key. -/
def PrivateKey.PublicKey
    (zks_crypto_private_key_to_public_key :
      CArray PrivateKeyLen → CArray PublicKeyLen → Int × CArray PublicKeyLen)
    (pk : PrivateKey) : Option (GoResult PublicKey) :=
  match marshalKey PrivateKeyLen pk.data with
  | none => none
  | some privateKeyC =>
    let pointer := CArray.zero PublicKeyLen
    let (result, pointer) := zks_crypto_private_key_to_public_key privateKeyC pointer
    if result ≠ 0 then
      some (none, some ⟨"Error on public key generation"⟩)
    else
      some (some ⟨GoBytes pointer PublicKeyLen⟩, none)

/-- Hash generates hash from public key. -/
def PublicKey.Hash
    (zks_crypto_public_key_to_pubkey_hash :
      CArray PublicKeyLen → CArray PubkeyHashLen → Int × CArray PubkeyHashLen)
    (pk : PublicKey) : Option (GoResult PublicKeyHash) :=
  match marshalKey PublicKeyLen pk.data with
  | none => none
  | some publicKeyC =>
    let pointer := CArray.zero PubkeyHashLen
    let (result, pointer) := zks_crypto_public_key_to_pubkey_hash publicKeyC pointer
    if result ≠ 0 then
      some (none, some ⟨"Error on public key hash generation"⟩)
    else
      some (some ⟨GoBytes pointer PubkeyHashLen⟩, none)

/-! ## Hexadecimal text -/

/-- The constant `hextable` of Go's `encoding/hex`. -/
def hextable : String := "0123456789abcdef"

/-- The byte `hextable[k]`; every index the encoder uses is below 16. -/
def hexdigit (k : Nat) : Char := hextable.toList.getD k '0'

/-- The loop of `hex.Encode(dst, src)`: `for _, v := range src`, entered with write
position `j`, stores `hextable[v>>4]` at `dst[j]` and `hextable[v&0x0f]` at `dst[j+1]`,
then advances `j` by 2. The caller allocates `dst` with `EncodedLen(len(src))` bytes, so
both indices are always in range (`encodeLoop_val`). -/
def encodeLoop : List Byte → Nat → List Char → List Char
  | [], _, dst => dst
  | v :: rest, j, dst =>
    encodeLoop rest (j + 2)
      ((dst.set j (hexdigit (v.val >>> 4))).set (j + 1) (hexdigit (v.val &&& 0x0f)))

/-- The function `hex.EncodedLen`. -/
def EncodedLen (n : Nat) : Nat := n * 2

/-- The function `hex.EncodeToString(src)`: allocate `EncodedLen(len(src))` bytes, run
`Encode`, convert to a string. -/
def EncodeToString (src : List Byte) : String :=
  let dst := List.replicate (EncodedLen src.length) (Char.ofNat 0)
  String.mk (encodeLoop src 0 dst)

/-- HexString creates a hex string representation of a private key. -/
def PrivateKey.HexString (pk : PrivateKey) : String :=
  if pk.data.isNil || pk.data.len == 0 then "0x" else EncodeToString pk.data.elems

/-- HexString creates a hex string representation of a public key. -/
def PublicKey.HexString (pk : PublicKey) : String :=
  if pk.data.isNil || pk.data.len == 0 then "0x" else EncodeToString pk.data.elems

/-- HexString creates a hex string representation of a public key hash. -/
def PublicKeyHash.HexString (pk : PublicKeyHash) : String :=
  if pk.data.isNil || pk.data.len == 0 then "0x" else EncodeToString pk.data.elems

/-- HexString creates a hex string representation of a signature. -/
def Signature.HexString (pk : Signature) : String :=
  if pk.data.isNil || pk.data.len == 0 then "0x" else EncodeToString pk.data.elems

/-! ## Reference definitions taken from the specification -/

/-- Reference: the lowercase hexadecimal digit for a value below 16, `0`..`9` then
`a`..`f`. -/
def lowerHexDigit (k : Nat) : Char :=
  if k < 10 then Char.ofNat (48 + k) else Char.ofNat (97 + (k - 10))

/-- Reference: the two lowercase hexadecimal digits of one byte, high digit first. -/
def hexPair (v : Byte) : List Char :=
  [lowerHexDigit (v.val / 16), lowerHexDigit (v.val % 16)]

/-- Reference encoder `toHex`, following the specification's words: empty or absent
backing data yields the literal `0x`; data of length `L > 0` yields lowercase hexadecimal
of length `2 * L`, two digits per byte, high digit first. -/
def toHexSpec (data : Slice) : String :=
  if data.len = 0 then "0x" else String.mk (data.elems.flatMap hexPair)

/-- The value of a hexadecimal digit, `none` for any other character (the shape of
`fromHexChar` in Go's `encoding/hex`). -/
def fromHexChar (c : Char) : Option Nat :=
  if '0' ≤ c ∧ c ≤ '9' then some (c.toNat - '0'.toNat)
  else if 'a' ≤ c ∧ c ≤ 'f' then some (c.toNat - 'a'.toNat + 10)
  else if 'A' ≤ c ∧ c ≤ 'F' then some (c.toNat - 'A'.toNat + 10)
  else none

/-- Decoding of a character sequence two digits at a time: `none` when a character is
not a hexadecimal digit or one character is left over. -/
def decodePairs : List Char → Option (List Byte)
  | [] => some []
  | [_] => none
  | a :: b :: rest =>
    match fromHexChar a, fromHexChar b, decodePairs rest with
    | some hi, some lo, some bytes => some (⟨(hi * 16 + lo) % 256, Nat.mod_lt _ (by decide)⟩ :: bytes)
    | _, _, _ => none

/-- Modelled from the spec: the repository has no decode-from-hex operation; the
specification asks that one, if required, be "the byte-exact inverse of encoding" that
"must reject odd-length or non-hex input". `none` is that rejection (MalformedEncoding). -/
def fromHex (s : String) : Option (List Byte) := decodePairs s.toList

/-- Modelled from the spec: the primitive `zks_crypto_private_key_from_seed` of the linked
C library, which is not among the source files. "Input constraint: len(seed) ≥ 32; shorter
seeds fail with SeedTooShort" and produce no key: a short seed gives the result
code the wrapper maps to `errSeedLen`, 1, and leaves the output struct as it was; any other
seed gives code 0 and the key `derive seed`, `derive` being the deterministic
hash-to-scalar function the specification leaves open. -/
def specPrivateKeyFromSeed (derive : List Byte → CArray PrivateKeyLen)
    (seed : List Byte) (out : CArray PrivateKeyLen) : Int × CArray PrivateKeyLen :=
  if seed.length < 32 then (1, out) else (0, derive seed)

/-- Modelled from the spec: the primitive `zks_crypto_sign_musig` of the linked C library,
which is not among the source files. "Input constraint: len(message) ≤ 92 bytes; longer
messages fail with MessageTooLong before any curve arithmetic is attempted": a long message
gives the result code the wrapper maps to `errSignedMsgLen`, 1, and leaves the output
struct as it was; any other message gives code 0 and the signature `sign key message`,
`sign` being the deterministic signing function of the specification. -/
def specSignMusig (sign : CArray PrivateKeyLen → List Byte → CArray PackedSignatureLen)
    (key : CArray PrivateKeyLen) (message : List Byte) (out : CArray PackedSignatureLen) :
    Int × CArray PackedSignatureLen :=
  if message.length > MaxSignedMessageLen then (1, out) else (0, sign key message)

/-! ## Lemmas on the copy loop -/

theorem take_succ_set {α : Type} (l : List α) (i : Nat) (v : α) (h : i < l.length) :
    (l.set i v).take (i + 1) = l.take i ++ [v] := by
  rw [List.take_succ, List.getElem?_set]
  simp only [if_true, h]
  apply congrArg (· ++ [v])
  apply List.ext_getElem?
  intro k
  rw [List.getElem?_take, List.getElem?_take]
  split
  · rw [List.getElem?_set_ne (by omega)]
  · rfl

theorem copyLoop_val {n : Nat} (src : List Byte) :
    ∀ (i : Nat) (a : CArray n), i + src.length ≤ n →
      ∃ r : CArray n, copyLoop src i a = some r ∧
        r.val = a.val.take i ++ src ++ a.val.drop (i + src.length) := by
  induction src with
  | nil =>
    intro i a _
    exact ⟨a, rfl, by simp⟩
  | cons v rest ih =>
    intro i a h
    simp only [List.length_cons] at h
    have hi : i < n := by omega
    obtain ⟨r, hr, hv⟩ := ih (i + 1) (a.set i v) (by omega)
    refine ⟨r, ?_, ?_⟩
    · simp only [copyLoop, hi, if_true]; exact hr
    · rw [hv]
      have hlen : a.val.length = n := a.property
      simp only [CArray.set, List.length_cons]
      rw [take_succ_set _ _ _ (by omega), List.drop_set_of_lt _ _ (by omega)]
      have e : i + 1 + rest.length = i + (rest.length + 1) := by omega
      rw [e]
      simp

theorem copyLoop_none {n : Nat} (src : List Byte) :
    ∀ (i : Nat) (a : CArray n), i ≤ n → n < i + src.length → copyLoop src i a = none := by
  induction src with
  | nil => intro i a h1 h2; simp at h2; omega
  | cons v rest ih =>
    intro i a h1 h2
    simp only [List.length_cons] at h2
    by_cases hi : i < n
    · simp only [copyLoop, hi, if_true]
      exact ih (i + 1) _ (by omega) (by omega)
    · simp only [copyLoop, hi, if_false]

/-- A key of at most `n` bytes reaches the primitive as its bytes followed by zeros. -/
theorem marshalKey_padded (n : Nat) (data : Slice) (h : data.len ≤ n) :
    ∃ keyC : CArray n, marshalKey n data = some keyC ∧
      keyC.val = data.elems ++ List.replicate (n - data.len) 0 := by
  obtain ⟨r, hr, hv⟩ := copyLoop_val data.elems 0 (CArray.zero n)
    (by simpa [Slice.len] using h)
  refine ⟨r, hr, ?_⟩
  rw [hv]
  simp [CArray.zero, Slice.len]

/-- A key of more than `n` bytes stops the copy loop with a panic. -/
theorem marshalKey_long (n : Nat) (data : Slice) (h : n < data.len) :
    marshalKey n data = none :=
  copyLoop_none data.elems 0 (CArray.zero n) (Nat.zero_le n) (by simpa [Slice.len] using h)

theorem GoBytes_full {n : Nat} (p : CArray n) : GoBytes p n = .of p.val := by
  simp [GoBytes, List.take_of_length_le, p.property]

theorem GoBytes_len {m : Nat} (p : CArray m) (n : Nat) (h : n ≤ m) :
    (GoBytes p n).len = n := by
  simp [GoBytes, Slice.len, Slice.elems, p.property, h]

/-! ## Lemmas on the hexadecimal encoder -/

theorem hexdigit_eq (k : Nat) (h : k < 16) : hexdigit k = lowerHexDigit k := by
  interval_cases k <;> rfl

theorem lowerHexDigit_mem (k : Nat) (h : k < 16) :
    lowerHexDigit k ∈ "0123456789abcdef".toList := by
  interval_cases k <;> decide

theorem fromHexChar_lower (k : Nat) (h : k < 16) :
    fromHexChar (lowerHexDigit k) = some k := by
  interval_cases k <;> decide

theorem byte_shift (v : Byte) : v.val >>> 4 = v.val / 16 := by
  rw [Nat.shiftRight_eq_div_pow]

theorem byte_mask (v : Byte) : v.val &&& 0x0f = v.val % 16 :=
  Nat.and_pow_two_sub_one_eq_mod v.val 4

theorem take_two_set {α : Type} (l : List α) (j : Nat) (a b : α) (h : j + 1 < l.length) :
    ((l.set j a).set (j + 1) b).take (j + 2) = l.take j ++ [a, b] := by
  have h1 : j + 1 < (l.set j a).length := by rw [List.length_set]; exact h
  rw [take_succ_set _ _ _ h1, take_succ_set _ _ _ (by omega)]
  simp

theorem encodeLoop_val (src : List Byte) :
    ∀ (j : Nat) (dst : List Char), j + 2 * src.length ≤ dst.length →
      encodeLoop src j dst =
        dst.take j ++ src.flatMap hexPair ++ dst.drop (j + 2 * src.length) := by
  induction src with
  | nil => intro j dst _; simp [encodeLoop]
  | cons v rest ih =>
    intro j dst h
    simp only [List.length_cons] at h
    have hv : v.val < 256 := v.isLt
    rw [encodeLoop, ih (j + 2) _ (by simp only [List.length_set]; omega)]
    rw [take_two_set _ _ _ _ (by omega)]
    rw [List.drop_set_of_lt _ _ (by omega), List.drop_set_of_lt _ _ (by omega)]
    rw [byte_shift, byte_mask, hexdigit_eq _ (by omega), hexdigit_eq _ (by omega)]
    have e : j + 2 + 2 * rest.length = j + 2 * (rest.length + 1) := by omega
    rw [e]
    simp [hexPair]

theorem EncodeToString_eq (src : List Byte) :
    EncodeToString src = String.mk (src.flatMap hexPair) := by
  unfold EncodeToString
  have h := encodeLoop_val src 0 (List.replicate (EncodedLen src.length) (Char.ofNat 0))
    (by simp [EncodedLen]; omega)
  simp only [h]
  simp [EncodedLen, Nat.mul_comm]

theorem length_flatMap_hexPair (l : List Byte) : (l.flatMap hexPair).length = 2 * l.length := by
  induction l with
  | nil => rfl
  | cons v rest ih => simp [List.flatMap_cons, hexPair, ih]; omega

theorem mem_flatMap_hexPair (l : List Byte) (c : Char) (h : c ∈ l.flatMap hexPair) :
    c ∈ "0123456789abcdef".toList := by
  rw [List.mem_flatMap] at h
  obtain ⟨v, _, hc⟩ := h
  have hv : v.val < 256 := v.isLt
  simp only [hexPair, List.mem_cons, List.mem_singleton, List.not_mem_nil, or_false] at hc
  rcases hc with hc | hc
  · rw [hc]; exact lowerHexDigit_mem _ (by omega)
  · rw [hc]; exact lowerHexDigit_mem _ (by omega)

theorem getElem?_flatMap_hexPair (l : List Byte) :
    ∀ (i : Nat) (h : i < l.length),
      (l.flatMap hexPair)[2 * i]? = some (lowerHexDigit ((l.get ⟨i, h⟩).val / 16)) ∧
      (l.flatMap hexPair)[2 * i + 1]? = some (lowerHexDigit ((l.get ⟨i, h⟩).val % 16)) := by
  induction l with
  | nil => intro i h; simp at h
  | cons v rest ih =>
    intro i h
    cases i with
    | zero => simp [List.flatMap_cons, hexPair]
    | succ k =>
      have hk : k < rest.length := by simpa using h
      have := ih k hk
      have e1 : 2 * (k + 1) = 2 * k + 1 + 1 := by omega
      rw [e1]
      simpa [List.flatMap_cons, hexPair] using this

theorem byte_of_digits (v : Byte) :
    (⟨(v.val / 16 * 16 + v.val % 16) % 256, Nat.mod_lt _ (by decide)⟩ : Byte) = v := by
  apply Fin.ext
  have hv : v.val < 256 := v.isLt
  show (v.val / 16 * 16 + v.val % 16) % 256 = v.val
  omega

theorem decodePairs_flatMap_hexPair (l : List Byte) :
    decodePairs (l.flatMap hexPair) = some l := by
  induction l with
  | nil => rfl
  | cons v rest ih =>
    have hv : v.val < 256 := v.isLt
    have e : (v :: rest).flatMap hexPair =
        lowerHexDigit (v.val / 16) :: lowerHexDigit (v.val % 16) :: rest.flatMap hexPair := rfl
    rw [e, decodePairs, fromHexChar_lower _ (by omega), fromHexChar_lower _ (by omega), ih]
    simp only [byte_of_digits]

theorem hexString_cases (d : Slice) :
    (if d.isNil || d.len == 0 then "0x" else EncodeToString d.elems) = toHexSpec d := by
  unfold toHexSpec
  cases d with
  | nil => rfl
  | of l =>
    cases l with
    | nil => rfl
    | cons v rest =>
      simp [Slice.isNil, Slice.len, Slice.elems, EncodeToString_eq]

/-! ## What each wrapper returns, by result code -/

theorem NewPrivateKey_eq
    (prim : List Byte → CArray PrivateKeyLen → Int × CArray PrivateKeyLen) (seed : Slice) :
    NewPrivateKey prim seed =
      if (prim seed.elems (CArray.zero PrivateKeyLen)).1 = 1 then (none, some errSeedLen)
      else (some ⟨.of (prim seed.elems (CArray.zero PrivateKeyLen)).2.val⟩, none) := by
  unfold NewPrivateKey
  rcases hp : prim seed.elems (CArray.zero PrivateKeyLen) with ⟨c, out⟩
  by_cases h1 : c = 1
  · subst h1; simp [hp]
  · by_cases h0 : c = 0
    · subst h0; simp [hp, GoBytes_full]
    · simp [hp, h0, h1, GoBytes_full]

theorem Sign_eq
    (prim : CArray PrivateKeyLen → List Byte → CArray PackedSignatureLen →
      Int × CArray PackedSignatureLen)
    (pk : PrivateKey) (message : Slice) (keyC : CArray PrivateKeyLen)
    (hk : marshalKey PrivateKeyLen pk.data = some keyC) :
    pk.Sign prim message =
      if (prim keyC message.elems (CArray.zero PackedSignatureLen)).1 = 1 then
        some (none, some errSignedMsgLen)
      else some (some ⟨.of (prim keyC message.elems (CArray.zero PackedSignatureLen)).2.val⟩,
        none) := by
  unfold PrivateKey.Sign
  rw [hk]
  rcases hp : prim keyC message.elems (CArray.zero PackedSignatureLen) with ⟨c, out⟩
  by_cases h1 : c = 1
  · subst h1; simp [hp]
  · by_cases h0 : c = 0
    · subst h0; simp [hp, GoBytes_full]
    · simp [hp, h0, h1, GoBytes_full]

theorem PublicKey_eq
    (prim : CArray PrivateKeyLen → CArray PublicKeyLen → Int × CArray PublicKeyLen)
    (pk : PrivateKey) (keyC : CArray PrivateKeyLen)
    (hk : marshalKey PrivateKeyLen pk.data = some keyC) :
    pk.PublicKey prim =
      if (prim keyC (CArray.zero PublicKeyLen)).1 ≠ 0 then
        some (none, some ⟨"Error on public key generation"⟩)
      else some (some ⟨GoBytes (prim keyC (CArray.zero PublicKeyLen)).2 PublicKeyLen⟩, none) := by
  unfold PrivateKey.PublicKey
  rw [hk]

theorem Hash_eq
    (prim : CArray PublicKeyLen → CArray PubkeyHashLen → Int × CArray PubkeyHashLen)
    (pk : PublicKey) (keyC : CArray PublicKeyLen)
    (hk : marshalKey PublicKeyLen pk.data = some keyC) :
    pk.Hash prim =
      if (prim keyC (CArray.zero PubkeyHashLen)).1 ≠ 0 then
        some (none, some ⟨"Error on public key hash generation"⟩)
      else some (some ⟨GoBytes (prim keyC (CArray.zero PubkeyHashLen)).2 PubkeyHashLen⟩, none) := by
  unfold PublicKey.Hash
  rw [hk]

theorem Sign_long_key
    (prim : CArray PrivateKeyLen → List Byte → CArray PackedSignatureLen →
      Int × CArray PackedSignatureLen)
    (pk : PrivateKey) (message : Slice) (h : PrivateKeyLen < pk.data.len) :
    pk.Sign prim message = none := by
  unfold PrivateKey.Sign
  rw [marshalKey_long _ _ h]

theorem PublicKey_long_key
    (prim : CArray PrivateKeyLen → CArray PublicKeyLen → Int × CArray PublicKeyLen)
    (pk : PrivateKey) (h : PrivateKeyLen < pk.data.len) :
    pk.PublicKey prim = none := by
  unfold PrivateKey.PublicKey
  rw [marshalKey_long _ _ h]

theorem Hash_long_key
    (prim : CArray PublicKeyLen → CArray PubkeyHashLen → Int × CArray PubkeyHashLen)
    (pk : PublicKey) (h : PublicKeyLen < pk.data.len) :
    pk.Hash prim = none := by
  unfold PublicKey.Hash
  rw [marshalKey_long _ _ h]

theorem toHexSpec_length (d : Slice) (h : 0 < d.len) :
    (toHexSpec d).length = 2 * d.len := by
  unfold toHexSpec
  rw [if_neg (by omega)]
  show (d.elems.flatMap hexPair).length = 2 * d.len
  rw [length_flatMap_hexPair]
  rfl

/-! ## The claims -/

/-- Claim C1, evaluated at the input where it fails: the seed-to-key primitive reports
result code 2 and leaves the zeroed output struct untouched; `NewPrivateKey` then falls
through its `switch` and returns a private key of 32 zero bytes with a nil error, not a
nil key with an error. -/
theorem NewPrivateKey_code_two_returns_key :
    NewPrivateKey (fun _ out => (2, out)) (.of []) =
      (some ⟨.of (List.replicate 32 0)⟩, none) := by
  decide

/-- Claim C2, evaluated at the input where it fails: for the key of 32 zero bytes and the
empty message the signing primitive reports result code 2 and leaves the zeroed output
struct untouched; `Sign` then falls through its `switch` and returns a signature of 64
zero bytes with a nil error, not a nil signature with an error. -/
theorem Sign_code_two_returns_signature :
    PrivateKey.Sign (fun _ _ out => (2, out)) ⟨.of (List.replicate 32 0)⟩ (.of []) =
      some (some ⟨.of (List.replicate 64 0)⟩, none) := by
  decide

/-- Claim C3: with the seed-to-key primitive as the specification describes it,
`NewPrivateKey` returns `errSeedLen` and no key for every seed of fewer than 32 bytes, and
returns a private key (the 32 bytes the primitive derived) with a nil error for every seed
of 32 bytes or more. -/
theorem NewPrivateKey_seed_length_boundary
    (derive : List Byte → CArray PrivateKeyLen) (seed : Slice) :
    (seed.len < 32 →
      NewPrivateKey (specPrivateKeyFromSeed derive) seed = (none, some errSeedLen)) ∧
    (32 ≤ seed.len →
      NewPrivateKey (specPrivateKeyFromSeed derive) seed =
        (some ⟨.of (derive seed.elems).val⟩, none)) := by
  rw [NewPrivateKey_eq]
  unfold specPrivateKeyFromSeed Slice.len
  constructor
  · intro h
    simp [h]
  · intro h
    have h2 : ¬ seed.elems.length < 32 := by omega
    simp [h2]

/-- Claim C3 at concrete seeds: a 31-byte seed is refused, a 32-byte seed yields the key. -/
theorem NewPrivateKey_seed_length_boundary_witness :
    NewPrivateKey (specPrivateKeyFromSeed fun _ => CArray.zero PrivateKeyLen)
        (.of (List.replicate 31 7)) = (none, some errSeedLen) ∧
    NewPrivateKey (specPrivateKeyFromSeed fun _ => CArray.zero PrivateKeyLen)
        (.of (List.replicate 32 7)) = (some ⟨.of (List.replicate 32 0)⟩, none) :=
  ⟨(NewPrivateKey_seed_length_boundary (fun _ => CArray.zero PrivateKeyLen)
      (.of (List.replicate 31 7))).1 (by decide),
   (NewPrivateKey_seed_length_boundary (fun _ => CArray.zero PrivateKeyLen)
      (.of (List.replicate 32 7))).2 (by decide)⟩

/-- Claim C4 as stated fails: for the private key whose data is 33 zero bytes and the empty
message (length 0, at most 92), `Sign` does not return a signature with a nil error; the
copy loop indexes the 32-byte array at 32 and the call panics. -/
theorem Sign_long_key_counterexample :
    PrivateKey.Sign (specSignMusig fun _ _ => CArray.zero PackedSignatureLen)
        ⟨.of (List.replicate 33 0)⟩ (.of []) = none ∧
    ¬ ∃ sig : Signature,
      PrivateKey.Sign (specSignMusig fun _ _ => CArray.zero PackedSignatureLen)
        ⟨.of (List.replicate 33 0)⟩ (.of []) = some (some sig, none) := by
  have h : PrivateKey.Sign (specSignMusig fun _ _ => CArray.zero PackedSignatureLen)
      ⟨.of (List.replicate 33 0)⟩ (.of []) = none := by decide
  refine ⟨h, ?_⟩
  rintro ⟨sig, hs⟩
  rw [h] at hs
  exact Option.noConfusion hs

/-- Claim C4, amended: with the signing primitive as the specification describes it, for
every private key whose data has at most 32 bytes, `Sign` returns a signature (the 64 bytes
the primitive produced from the zero-padded key and the message) with a nil error for every
message of at most 92 bytes, and returns `errSignedMsgLen` and no signature for every
message longer than 92 bytes. -/
theorem Sign_message_length_boundary
    (sign : CArray PrivateKeyLen → List Byte → CArray PackedSignatureLen)
    (pk : PrivateKey) (message : Slice) (hk : pk.data.len ≤ PrivateKeyLen) :
    ∃ keyC : CArray PrivateKeyLen,
      keyC.val = pk.data.elems ++ List.replicate (PrivateKeyLen - pk.data.len) 0 ∧
      (message.len ≤ MaxSignedMessageLen →
        pk.Sign (specSignMusig sign) message =
          some (some ⟨.of (sign keyC message.elems).val⟩, none)) ∧
      (MaxSignedMessageLen < message.len →
        pk.Sign (specSignMusig sign) message = some (none, some errSignedMsgLen)) := by
  obtain ⟨keyC, hm, hv⟩ := marshalKey_padded PrivateKeyLen pk.data hk
  refine ⟨keyC, hv, ?_, ?_⟩
  · intro h
    rw [Sign_eq _ _ _ keyC hm]
    have h2 : ¬ message.elems.length > MaxSignedMessageLen := by
      simp only [Slice.len] at h; omega
    simp [specSignMusig, h2]
  · intro h
    rw [Sign_eq _ _ _ keyC hm]
    have h2 : message.elems.length > MaxSignedMessageLen := by
      simp only [Slice.len] at h; omega
    simp [specSignMusig, h2]

/-- Claim C4 at concrete inputs: with the zero-value key, a 92-byte message is signed and
a 93-byte message is refused. -/
theorem Sign_message_length_boundary_witness :
    PrivateKey.Sign (specSignMusig fun _ _ => CArray.zero PackedSignatureLen) ⟨.nil⟩
        (.of (List.replicate 92 255)) = some (some ⟨.of (List.replicate 64 0)⟩, none) ∧
    PrivateKey.Sign (specSignMusig fun _ _ => CArray.zero PackedSignatureLen) ⟨.nil⟩
        (.of (List.replicate 93 255)) = some (none, some errSignedMsgLen) := by
  obtain ⟨_, _, h92, _⟩ := Sign_message_length_boundary
    (fun _ _ => CArray.zero PackedSignatureLen) ⟨.nil⟩ (.of (List.replicate 92 255))
    (by decide)
  obtain ⟨_, _, _, h93⟩ := Sign_message_length_boundary
    (fun _ _ => CArray.zero PackedSignatureLen) ⟨.nil⟩ (.of (List.replicate 93 255))
    (by decide)
  exact ⟨h92 (by decide), h93 (by decide)⟩

/-- Claim C5: each of the four `HexString` methods equals the reference encoder. For nil or
zero-length data the result is the two-character string `0x`. For data of length `L > 0`
the result has exactly `2 * L` characters, each one of `0123456789abcdef`, and characters
`2 * i` and `2 * i + 1` are the high and low hexadecimal digit of byte `i`. Slices holding
the same bytes give the same string under all four methods. -/
theorem HexString_eq_reference (d : Slice) :
    PrivateKey.HexString ⟨d⟩ = toHexSpec d ∧
    PublicKey.HexString ⟨d⟩ = toHexSpec d ∧
    PublicKeyHash.HexString ⟨d⟩ = toHexSpec d ∧
    Signature.HexString ⟨d⟩ = toHexSpec d ∧
    ((d.isNil = true ∨ d.len = 0) → PrivateKey.HexString ⟨d⟩ = "0x") ∧
    (0 < d.len →
      (PrivateKey.HexString ⟨d⟩).length = 2 * d.len ∧
      (∀ c ∈ (PrivateKey.HexString ⟨d⟩).toList, c ∈ "0123456789abcdef".toList) ∧
      ∀ (i : Nat) (h : i < d.elems.length),
        (PrivateKey.HexString ⟨d⟩).toList[2 * i]? =
          some (lowerHexDigit ((d.elems.get ⟨i, h⟩).val / 16)) ∧
        (PrivateKey.HexString ⟨d⟩).toList[2 * i + 1]? =
          some (lowerHexDigit ((d.elems.get ⟨i, h⟩).val % 16))) ∧
    (∀ d2 : Slice, d2.elems = d.elems →
      PrivateKey.HexString ⟨d2⟩ = PrivateKey.HexString ⟨d⟩ ∧
      PublicKey.HexString ⟨d2⟩ = PrivateKey.HexString ⟨d⟩ ∧
      PublicKeyHash.HexString ⟨d2⟩ = PrivateKey.HexString ⟨d⟩ ∧
      Signature.HexString ⟨d2⟩ = PrivateKey.HexString ⟨d⟩) := by
  have hpk : ∀ x : Slice, PrivateKey.HexString ⟨x⟩ = toHexSpec x := hexString_cases
  have hpub : ∀ x : Slice, PublicKey.HexString ⟨x⟩ = toHexSpec x := hexString_cases
  have hh : ∀ x : Slice, PublicKeyHash.HexString ⟨x⟩ = toHexSpec x := hexString_cases
  have hs : ∀ x : Slice, Signature.HexString ⟨x⟩ = toHexSpec x := hexString_cases
  refine ⟨hpk d, hpub d, hh d, hs d, ?_, ?_, ?_⟩
  · intro h
    have h0 : d.len = 0 := by
      rcases h with h | h
      · cases d with
        | nil => rfl
        | of l => simp [Slice.isNil] at h
      · exact h
    rw [hpk, toHexSpec, if_pos h0]
  · intro hpos
    rw [hpk]
    refine ⟨toHexSpec_length d hpos, ?_, ?_⟩
    · intro c hc
      unfold toHexSpec at hc
      rw [if_neg (by omega)] at hc
      exact mem_flatMap_hexPair d.elems c hc
    · intro i h
      unfold toHexSpec
      rw [if_neg (by omega)]
      exact getElem?_flatMap_hexPair d.elems i h
  · intro d2 h2
    have e : toHexSpec d2 = toHexSpec d := by
      unfold toHexSpec Slice.len
      rw [h2]
    rw [hpk, hpub, hh, hs, hpk, e]
    exact ⟨rfl, rfl, rfl, rfl⟩

/-- Claim C5 at concrete data: the three bytes 01 ff 10 encode as `01ff10`, six characters. -/
theorem HexString_eq_reference_witness :
    PrivateKey.HexString ⟨.of [1, 255, 16]⟩ = "01ff10" ∧
    (PrivateKey.HexString ⟨.of [1, 255, 16]⟩).length = 2 * 3 ∧
    PrivateKey.HexString ⟨.nil⟩ = "0x" ∧
    Signature.HexString ⟨.of []⟩ = PrivateKey.HexString ⟨.nil⟩ :=
  ⟨by decide,
   ((HexString_eq_reference (.of [1, 255, 16])).2.2.2.2.2.1 (by decide)).1,
   (HexString_eq_reference .nil).2.2.2.2.1 (Or.inl rfl),
   ((HexString_eq_reference .nil).2.2.2.2.2.2 (.of []) rfl).2.2.2⟩

/-- Claim C6 as stated fails: the empty byte sequence is encoded as `0x`, which the decoder
rejects because `x` is not a hexadecimal digit; decoding does not give back the empty
sequence, for the empty slice and for the nil slice alike. -/
theorem fromHex_HexString_empty_counterexample :
    PrivateKey.HexString ⟨.of []⟩ = "0x" ∧
    fromHex (PrivateKey.HexString ⟨.of []⟩) = none ∧
    fromHex (PrivateKey.HexString ⟨.of []⟩) ≠ some (Slice.of []).elems ∧
    fromHex (Signature.HexString ⟨.nil⟩) ≠ some Slice.nil.elems := by
  decide

/-- Claim C6, amended: for every artifact type and every non-empty backing byte sequence,
decoding the `HexString` with the hex decoder that rejects odd-length or non-hex input
succeeds and returns the bytes. -/
theorem fromHex_HexString_roundtrip (d : Slice) (h : 0 < d.len) :
    fromHex (PrivateKey.HexString ⟨d⟩) = some d.elems ∧
    fromHex (PublicKey.HexString ⟨d⟩) = some d.elems ∧
    fromHex (PublicKeyHash.HexString ⟨d⟩) = some d.elems ∧
    fromHex (Signature.HexString ⟨d⟩) = some d.elems := by
  have e : fromHex (toHexSpec d) = some d.elems := by
    unfold toHexSpec fromHex
    rw [if_neg (by omega)]
    exact decodePairs_flatMap_hexPair d.elems
  have hpk : PrivateKey.HexString ⟨d⟩ = toHexSpec d := hexString_cases d
  have hpub : PublicKey.HexString ⟨d⟩ = toHexSpec d := hexString_cases d
  have hh : PublicKeyHash.HexString ⟨d⟩ = toHexSpec d := hexString_cases d
  have hs : Signature.HexString ⟨d⟩ = toHexSpec d := hexString_cases d
  rw [hpk, hpub, hh, hs]
  exact ⟨e, e, e, e⟩

/-- Claim C6 at concrete data: the bytes 00 9a ff survive encoding and decoding. -/
theorem fromHex_HexString_roundtrip_witness :
    0 < (Slice.of [0, 154, 255]).len ∧
    fromHex (PrivateKey.HexString ⟨.of [0, 154, 255]⟩) = some [0, 154, 255] :=
  ⟨by decide, (fromHex_HexString_roundtrip (.of [0, 154, 255]) (by decide)).1⟩

/-- Claim C7: whenever the copy loop hands a key to the primitive (every key of at most 32
bytes; a longer key stops the call before the primitive runs), `PrivateKey.PublicKey` and
`PublicKey.Hash` return a non-nil error with a nil artifact exactly when the primitive's
result code is non-zero, and the artifact read from the primitive's output struct with a
nil error exactly when the result code is 0. -/
theorem PublicKey_Hash_surface_result_code
    (toPub : CArray PrivateKeyLen → CArray PublicKeyLen → Int × CArray PublicKeyLen)
    (toHash : CArray PublicKeyLen → CArray PubkeyHashLen → Int × CArray PubkeyHashLen)
    (pk : PrivateKey) (pub : PublicKey) :
    (pk.data.len ≤ PrivateKeyLen →
      ∃ keyC : CArray PrivateKeyLen, marshalKey PrivateKeyLen pk.data = some keyC ∧
        ((toPub keyC (CArray.zero PublicKeyLen)).1 ≠ 0 ↔
          ∃ e : GoError, pk.PublicKey toPub = some (none, some e)) ∧
        ((toPub keyC (CArray.zero PublicKeyLen)).1 = 0 ↔
          pk.PublicKey toPub =
            some (some ⟨GoBytes (toPub keyC (CArray.zero PublicKeyLen)).2 PublicKeyLen⟩,
              none))) ∧
    (PrivateKeyLen < pk.data.len → pk.PublicKey toPub = none) ∧
    (pub.data.len ≤ PublicKeyLen →
      ∃ keyC : CArray PublicKeyLen, marshalKey PublicKeyLen pub.data = some keyC ∧
        ((toHash keyC (CArray.zero PubkeyHashLen)).1 ≠ 0 ↔
          ∃ e : GoError, pub.Hash toHash = some (none, some e)) ∧
        ((toHash keyC (CArray.zero PubkeyHashLen)).1 = 0 ↔
          pub.Hash toHash =
            some (some ⟨GoBytes (toHash keyC (CArray.zero PubkeyHashLen)).2 PubkeyHashLen⟩,
              none))) ∧
    (PublicKeyLen < pub.data.len → pub.Hash toHash = none) := by
  refine ⟨?_, PublicKey_long_key toPub pk, ?_, Hash_long_key toHash pub⟩
  · intro h
    obtain ⟨keyC, hm, _⟩ := marshalKey_padded PrivateKeyLen pk.data h
    refine ⟨keyC, hm, ?_, ?_⟩
    · rw [PublicKey_eq _ _ keyC hm]
      by_cases hc : (toPub keyC (CArray.zero PublicKeyLen)).1 = 0
      · simp [hc]
      · simp [hc]
    · rw [PublicKey_eq _ _ keyC hm]
      by_cases hc : (toPub keyC (CArray.zero PublicKeyLen)).1 = 0
      · simp [hc]
      · simp [hc]
  · intro h
    obtain ⟨keyC, hm, _⟩ := marshalKey_padded PublicKeyLen pub.data h
    refine ⟨keyC, hm, ?_, ?_⟩
    · rw [Hash_eq _ _ keyC hm]
      by_cases hc : (toHash keyC (CArray.zero PubkeyHashLen)).1 = 0
      · simp [hc]
      · simp [hc]
    · rw [Hash_eq _ _ keyC hm]
      by_cases hc : (toHash keyC (CArray.zero PubkeyHashLen)).1 = 0
      · simp [hc]
      · simp [hc]

/-- Claim C7 at concrete inputs: for the zero-value keys, a primitive reporting code 3
makes both methods return an error and no artifact. -/
theorem PublicKey_Hash_surface_result_code_witness :
    (∃ e : GoError, PrivateKey.PublicKey (fun _ out => (3, out)) ⟨.nil⟩ = some (none, some e)) ∧
    (∃ e : GoError, PublicKey.Hash (fun _ out => (3, out)) ⟨.nil⟩ = some (none, some e)) := by
  have h := PublicKey_Hash_surface_result_code (fun _ out => (3, out)) (fun _ out => (3, out))
    ⟨.nil⟩ ⟨.nil⟩
  obtain ⟨_, _, h1, _⟩ := h.1 (by decide)
  obtain ⟨_, _, h2, _⟩ := h.2.2.1 (by decide)
  exact ⟨h1.mp (by decide), h2.mp (by decide)⟩

/-- Claim C8: whenever `NewPrivateKey`, `PrivateKey.PublicKey`, `PublicKey.Hash` or
`PrivateKey.Sign` returns a nil error, it returns an artifact, the artifact's data has
exactly 32, 32, 20 and 64 bytes respectively, and its `HexString` has exactly 64, 64, 40
and 128 characters respectively. -/
theorem artifact_widths
    (fromSeed : List Byte → CArray PrivateKeyLen → Int × CArray PrivateKeyLen)
    (sign : CArray PrivateKeyLen → List Byte → CArray PackedSignatureLen →
      Int × CArray PackedSignatureLen)
    (toPub : CArray PrivateKeyLen → CArray PublicKeyLen → Int × CArray PublicKeyLen)
    (toHash : CArray PublicKeyLen → CArray PubkeyHashLen → Int × CArray PubkeyHashLen)
    (seed message : Slice) (pk : PrivateKey) (pub : PublicKey) :
    (∀ r : Option PrivateKey, NewPrivateKey fromSeed seed = (r, none) →
      ∃ k : PrivateKey, r = some k ∧
        k.data.len = PrivateKeyLen ∧ k.HexString.length = 64) ∧
    (∀ r : Option PublicKey, pk.PublicKey toPub = some (r, none) →
      ∃ p : PublicKey, r = some p ∧
        p.data.len = PublicKeyLen ∧ p.HexString.length = 64) ∧
    (∀ r : Option PublicKeyHash, pub.Hash toHash = some (r, none) →
      ∃ a : PublicKeyHash, r = some a ∧
        a.data.len = PubkeyHashLen ∧ a.HexString.length = 40) ∧
    (∀ r : Option Signature, pk.Sign sign message = some (r, none) →
      ∃ s : Signature, r = some s ∧
        s.data.len = PackedSignatureLen ∧ s.HexString.length = 128) := by
  have hex : ∀ (d : Slice) (n : Nat), 0 < n → d.len = n → (toHexSpec d).length = 2 * n := by
    intro d n hn hd
    rw [toHexSpec_length d (by omega), hd]
  refine ⟨?_, ?_, ?_, ?_⟩
  · intro r hr
    rw [NewPrivateKey_eq] at hr
    split at hr
    · simp at hr
    · simp only [Prod.mk.injEq, and_true] at hr
      have hl : (Slice.of (fromSeed seed.elems (CArray.zero PrivateKeyLen)).2.val).len
          = PrivateKeyLen := (fromSeed seed.elems (CArray.zero PrivateKeyLen)).2.property
      refine ⟨_, hr.symm, hl, ?_⟩
      unfold PrivateKey.HexString
      rw [hexString_cases]
      exact hex _ 32 (by decide) hl
  · intro r hr
    have hlen : pk.data.len ≤ PrivateKeyLen := by
      by_contra hc
      rw [PublicKey_long_key toPub pk (by omega)] at hr
      exact Option.noConfusion hr
    obtain ⟨keyC, hm, _⟩ := marshalKey_padded PrivateKeyLen pk.data hlen
    rw [PublicKey_eq _ _ keyC hm] at hr
    split at hr
    · simp at hr
    · simp only [Option.some.injEq, Prod.mk.injEq, and_true] at hr
      have hl : (GoBytes (toPub keyC (CArray.zero PublicKeyLen)).2 PublicKeyLen).len
          = PublicKeyLen := GoBytes_len _ _ (Nat.le_refl _)
      refine ⟨_, hr.symm, hl, ?_⟩
      unfold PublicKey.HexString
      rw [hexString_cases]
      exact hex _ 32 (by decide) hl
  · intro r hr
    have hlen : pub.data.len ≤ PublicKeyLen := by
      by_contra hc
      rw [Hash_long_key toHash pub (by omega)] at hr
      exact Option.noConfusion hr
    obtain ⟨keyC, hm, _⟩ := marshalKey_padded PublicKeyLen pub.data hlen
    rw [Hash_eq _ _ keyC hm] at hr
    split at hr
    · simp at hr
    · simp only [Option.some.injEq, Prod.mk.injEq, and_true] at hr
      have hl : (GoBytes (toHash keyC (CArray.zero PubkeyHashLen)).2 PubkeyHashLen).len
          = PubkeyHashLen := GoBytes_len _ _ (Nat.le_refl _)
      refine ⟨_, hr.symm, hl, ?_⟩
      unfold PublicKeyHash.HexString
      rw [hexString_cases]
      exact hex _ 20 (by decide) hl
  · intro r hr
    have hlen : pk.data.len ≤ PrivateKeyLen := by
      by_contra hc
      rw [Sign_long_key sign pk message (by omega)] at hr
      exact Option.noConfusion hr
    obtain ⟨keyC, hm, _⟩ := marshalKey_padded PrivateKeyLen pk.data hlen
    rw [Sign_eq _ _ _ keyC hm] at hr
    split at hr
    · simp at hr
    · simp only [Option.some.injEq, Prod.mk.injEq, and_true] at hr
      have hl : (Slice.of (sign keyC message.elems (CArray.zero PackedSignatureLen)).2.val).len
          = PackedSignatureLen :=
        (sign keyC message.elems (CArray.zero PackedSignatureLen)).2.property
      refine ⟨_, hr.symm, hl, ?_⟩
      unfold Signature.HexString
      rw [hexString_cases]
      exact hex _ 64 (by decide) hl

/-- Claim C8 at concrete inputs: with primitives that succeed and write nothing,
`NewPrivateKey` on the nil seed and `Hash` on the zero-value public key return a nil error,
and what they return is an artifact of 32 bytes and 64 hexadecimal characters, and of 20
bytes and 40 hexadecimal characters. -/
theorem artifact_widths_witness :
    NewPrivateKey (fun _ out => (0, out)) .nil = (some ⟨.of (List.replicate 32 0)⟩, none) ∧
    (∃ k : PrivateKey, some (PrivateKey.mk (.of (List.replicate 32 0))) = some k ∧
      k.data.len = PrivateKeyLen ∧ k.HexString.length = 64) ∧
    PublicKey.Hash (fun _ out => (0, out)) ⟨.nil⟩ =
      some (some ⟨.of (List.replicate 20 0)⟩, none) ∧
    (∃ a : PublicKeyHash, some (PublicKeyHash.mk (.of (List.replicate 20 0))) = some a ∧
      a.data.len = PubkeyHashLen ∧ a.HexString.length = 40) :=
  have h := artifact_widths (fun _ out => (0, out)) (fun _ _ out => (0, out))
    (fun _ out => (0, out)) (fun _ out => (0, out)) .nil .nil ⟨.nil⟩ ⟨.nil⟩
  ⟨by decide, h.1 _ (by decide), by decide, h.2.2.1 _ (by decide)⟩

theorem marshalKey_eq_of_padded (n : Nat) (d1 d2 : Slice) (h1 : d1.len ≤ n) (h2 : d2.len ≤ n)
    (h : d1.elems ++ List.replicate (n - d1.len) 0 =
      d2.elems ++ List.replicate (n - d2.len) 0) :
    marshalKey n d1 = marshalKey n d2 := by
  obtain ⟨k1, hm1, hv1⟩ := marshalKey_padded n d1 h1
  obtain ⟨k2, hm2, hv2⟩ := marshalKey_padded n d2 h2
  rw [hm1, hm2]
  congr 1
  apply Subtype.ext
  rw [hv1, hv2, h]

/-- Claim C10: a key whose data has `n ≤ 32` bytes is never rejected and never makes the copy
loop leave the 32-byte array: the struct `keyC` the copy loop builds holds those `n` bytes
followed by `32 - n` zero bytes, and `Sign`, `PublicKey` and `Hash` return exactly what the
wrapper makes of the primitive's answer on `keyC` (for `Sign`, on `keyC`, the message bytes
and a zeroed signature struct). In particular a primitive that answers with the key it was
handed makes `PublicKey` return the zero-padded data. Consequently two keys whose
zero-padded data agree, such as the zero-value key and the key of 32 zero bytes, give
identical results from `Sign`, `PublicKey` and `Hash`. -/
theorem short_keys_zero_padded
    (sign : CArray PrivateKeyLen → List Byte → CArray PackedSignatureLen →
      Int × CArray PackedSignatureLen)
    (toPub : CArray PrivateKeyLen → CArray PublicKeyLen → Int × CArray PublicKeyLen)
    (toHash : CArray PublicKeyLen → CArray PubkeyHashLen → Int × CArray PubkeyHashLen)
    (d1 d2 message : Slice) (h1 : d1.len ≤ 32) (h2 : d2.len ≤ 32)
    (hpad : d1.elems ++ List.replicate (32 - d1.len) 0 =
      d2.elems ++ List.replicate (32 - d2.len) 0) :
    (∃ keyC : CArray 32,
      keyC.val = d1.elems ++ List.replicate (32 - d1.len) 0 ∧
      marshalKey 32 d1 = some keyC ∧
      PrivateKey.Sign sign ⟨d1⟩ message =
        some (if (sign keyC message.elems (CArray.zero PackedSignatureLen)).1 = 1 then
            (none, some errSignedMsgLen)
          else
            (some ⟨.of (sign keyC message.elems (CArray.zero PackedSignatureLen)).2.val⟩,
              none)) ∧
      PrivateKey.PublicKey toPub ⟨d1⟩ =
        some (if (toPub keyC (CArray.zero PublicKeyLen)).1 ≠ 0 then
            (none, some ⟨"Error on public key generation"⟩)
          else (some ⟨.of (toPub keyC (CArray.zero PublicKeyLen)).2.val⟩, none)) ∧
      PublicKey.Hash toHash ⟨d1⟩ =
        some (if (toHash keyC (CArray.zero PubkeyHashLen)).1 ≠ 0 then
            (none, some ⟨"Error on public key hash generation"⟩)
          else (some ⟨.of (toHash keyC (CArray.zero PubkeyHashLen)).2.val⟩, none))) ∧
    PrivateKey.PublicKey (fun key _ => (0, key)) ⟨d1⟩ =
      some (some ⟨.of (d1.elems ++ List.replicate (32 - d1.len) 0)⟩, none) ∧
    PrivateKey.Sign sign ⟨d1⟩ message = PrivateKey.Sign sign ⟨d2⟩ message ∧
    PrivateKey.PublicKey toPub ⟨d1⟩ = PrivateKey.PublicKey toPub ⟨d2⟩ ∧
    PublicKey.Hash toHash ⟨d1⟩ = PublicKey.Hash toHash ⟨d2⟩ := by
  obtain ⟨keyC, hm, hv⟩ := marshalKey_padded 32 d1 h1
  have hmm : marshalKey 32 d1 = marshalKey 32 d2 := marshalKey_eq_of_padded 32 d1 d2 h1 h2 hpad
  refine ⟨⟨keyC, hv, hm, ?_, ?_, ?_⟩, ?_, ?_, ?_, ?_⟩
  · rw [Sign_eq sign ⟨d1⟩ message keyC hm]
    split <;> rfl
  · rw [PublicKey_eq toPub ⟨d1⟩ keyC hm, GoBytes_full]
    split <;> rfl
  · rw [Hash_eq toHash ⟨d1⟩ keyC hm, GoBytes_full]
    split <;> rfl
  · rw [PublicKey_eq _ ⟨d1⟩ keyC hm, GoBytes_full, ← hv]
    simp
  · unfold PrivateKey.Sign; rw [show marshalKey PrivateKeyLen d1 = _ from hmm]
  · unfold PrivateKey.PublicKey; rw [show marshalKey PrivateKeyLen d1 = _ from hmm]
  · unfold PublicKey.Hash; rw [show marshalKey PublicKeyLen d1 = _ from hmm]

/-- Claim C10 at concrete keys: the key with data 01 02 reaches a primitive that answers
with the key it was handed as 01 02 followed by 30 zero bytes, and the zero-value key (nil
data) and the key of 32 zero bytes give identical signatures under a primitive whose answer
repeats the key it was handed. -/
theorem short_keys_zero_padded_witness :
    (Slice.of [1, 2]).len ≤ 32 ∧
    PrivateKey.PublicKey (fun key _ => (0, key)) ⟨.of [1, 2]⟩ =
      some (some ⟨.of ([1, 2] ++ List.replicate 30 0)⟩, none) ∧
    Slice.nil.len ≤ 32 ∧ (Slice.of (List.replicate 32 0)).len ≤ 32 ∧
    PrivateKey.Sign
        (fun key _ _ => (0, ⟨key.val ++ key.val, by rw [List.length_append, key.property]; rfl⟩))
        ⟨.nil⟩ (.of [1]) =
      PrivateKey.Sign
        (fun key _ _ => (0, ⟨key.val ++ key.val, by rw [List.length_append, key.property]; rfl⟩))
        ⟨.of (List.replicate 32 0)⟩ (.of [1]) :=
  have ha := short_keys_zero_padded (fun _ _ out => (0, out))
    (fun key _ => (0, key)) (fun _ out => (0, out))
    (.of [1, 2]) (.of [1, 2]) .nil (by decide) (by decide) rfl
  have hb := short_keys_zero_padded
    (fun key _ _ => (0, ⟨key.val ++ key.val, by rw [List.length_append, key.property]; rfl⟩))
    (fun key _ => (0, key)) (fun _ out => (0, out))
    .nil (.of (List.replicate 32 0)) (.of [1]) (by decide) (by decide) (by decide)
  ⟨by decide, ha.2.1, by decide, by decide, hb.2.2.1⟩

/-- A key whose data has more than 32 bytes makes `Sign`, `PublicKey` and `Hash` stop with
Go's index-out-of-range panic in the copy loop, whatever the primitive; no result and no
error is returned. -/
theorem long_keys_panic
    (sign : CArray PrivateKeyLen → List Byte → CArray PackedSignatureLen →
      Int × CArray PackedSignatureLen)
    (toPub : CArray PrivateKeyLen → CArray PublicKeyLen → Int × CArray PublicKeyLen)
    (toHash : CArray PublicKeyLen → CArray PubkeyHashLen → Int × CArray PubkeyHashLen)
    (d message : Slice) (h : 32 < d.len) :
    PrivateKey.Sign sign ⟨d⟩ message = none ∧
    PrivateKey.PublicKey toPub ⟨d⟩ = none ∧
    PublicKey.Hash toHash ⟨d⟩ = none :=
  ⟨Sign_long_key sign ⟨d⟩ message h, PublicKey_long_key toPub ⟨d⟩ h,
    Hash_long_key toHash ⟨d⟩ h⟩

/-- The panic at a concrete key of 33 bytes. -/
theorem long_keys_panic_witness :
    32 < (Slice.of (List.replicate 33 1)).len ∧
    PrivateKey.PublicKey (fun _ out => (0, out)) ⟨.of (List.replicate 33 1)⟩ = none :=
  ⟨by decide,
   (long_keys_panic (fun _ _ out => (0, out)) (fun _ out => (0, out)) (fun _ out => (0, out))
      (.of (List.replicate 33 1)) .nil (by decide)).2.1⟩

end Zkscrypto
